import Mathlib

/-!
Verification of the Synapse WebSocket server (room registry, broadcast
fan-out, protocol translator, color assignment) against its design
specification.

Shallow embedding conventions:
* Rust `f64` payload fields (cursor/shape coordinates, stroke widths) are
  modelled as `ℚ`; every finite double is a rational and the JSON layer
  round-trips finite doubles exactly, so the rationals are a faithful
  superset of the wire values.
* Rust `HashMap<String, V>` is modelled as an association list
  `List (String × V)` with unique keys (an invariant of all reachable
  registry states, proved below); `insert` replaces the existing entry
  in place or appends, `remove` deletes the entry.
* The `tokio::sync::broadcast` channel of a room is modelled by the list
  `log` of messages sent on it, in send order; a subscription is a
  forward cursor: a subscriber created at cursor `c` receives exactly the
  messages at positions `≥ c` of the log (`broadcast::Sender::subscribe`
  delivers only messages sent after the subscription).
* A Rust panic is modelled by `Option`: `none` means the call panics.
* `Vec<u8>` is modelled as `List Nat` with entries `< 256`.
-/

/-! ## Protocol (src/server/src/protocol.rs) -/

/-- `struct UserInfo` (protocol.rs, lines 6-11). -/
structure UserInfo where
  id : String
  name : String
  color : String
deriving DecidableEq

/-- `enum ShapeType` (protocol.rs, lines 84-90). -/
inductive ShapeType where
  | Rectangle
  | Ellipse
  | Line
  | Arrow
deriving DecidableEq

/-- `enum DrawOperation` (protocol.rs, lines 38-81); coordinates and
stroke widths are `f64` in the source, modelled as `ℚ`. -/
inductive DrawOperation where
  | PathStart (id : String) (x y : ℚ) (color : String) (stroke_width : ℚ)
  | PathPoint (id : String) (x y : ℚ)
  | PathEnd (id : String)
  | Shape (id : String) (shape_type : ShapeType) (x y width height : ℚ)
      (color : String) (stroke_width : ℚ)
  | Erase (id : String)
  | Clear
deriving DecidableEq

/-- `enum ClientMessage` (protocol.rs, lines 21-35). -/
inductive ClientMessage where
  | CursorMove (x y : ℚ)
  | Draw (operation : DrawOperation)
  | SyncRequest
  | UpdateName (name : String)
deriving DecidableEq

/-- `enum ServerMessage` (protocol.rs, lines 93-129); `YjsSync.data` is
`Vec<u8>` in the source, modelled as `List Nat` of byte values. -/
inductive ServerMessage where
  | UserJoined (user : UserInfo)
  | UserLeft (user_id : String)
  | CursorUpdate (user_id : String) (x y : ℚ)
  | DrawUpdate (user_id : String) (operation : DrawOperation)
  | RoomState (users : List UserInfo)
  | YjsSync (user_id : String) (data : List Nat)
  | Error (message : String)
deriving DecidableEq

/-- `ServerMessage::from_client_message` (protocol.rs, lines 133-155),
translated verbatim: the `SyncRequest` arm returns an empty user list
(`users: vec![]`) and the `UpdateName` arm leaves the color blank
(`color: String::new()`), exactly as in the source. -/
def ServerMessage.from_client_message (msg : ClientMessage) (user_id : String) :
    ServerMessage :=
  match msg with
  | ClientMessage.CursorMove x y => ServerMessage.CursorUpdate user_id x y
  | ClientMessage.Draw operation => ServerMessage.DrawUpdate user_id operation
  | ClientMessage.SyncRequest => ServerMessage.RoomState []
  | ClientMessage.UpdateName name =>
      ServerMessage.UserJoined ⟨user_id, name, ""⟩

/-! ## Color assignment (src/server/src/room.rs, lines 101-118)

Strings are sequences of Unicode scalar values; `utf8Bytes` is the UTF-8
encoding of one character as byte values (`Nat < 256`), so `strBytes`
matches Rust's `str::bytes()`. -/

/-- UTF-8 encoding of a single character, as byte values. -/
def utf8Bytes (c : Char) : List Nat :=
  let n := c.toNat
  if n < 0x80 then [n]
  else if n < 0x800 then
    [0xC0 + n / 0x40, 0x80 + n % 0x40]
  else if n < 0x10000 then
    [0xE0 + n / 0x1000, 0x80 + n / 0x40 % 0x40, 0x80 + n % 0x40]
  else
    [0xF0 + n / 0x40000, 0x80 + n / 0x1000 % 0x40, 0x80 + n / 0x40 % 0x40,
      0x80 + n % 0x40]

/-- The UTF-8 bytes of a string, as `user_id.bytes()` yields them. -/
def strBytes (s : String) : List Nat :=
  (s.data.map utf8Bytes).flatten

/-- The fixed palette (room.rs, lines 103-114). -/
def colors : List String :=
  ["#FF6B6B", "#4ECDC4", "#45B7D1", "#96CEB4", "#FFEAA7",
   "#DDA0DD", "#98D8C8", "#F7DC6F", "#BB8FCE", "#85C1E9"]

/-- `generate_user_color` (room.rs, lines 102-118): sum the byte values of
the identifier and index the palette modulo its length. The source indexes
`colors[hash % colors.len()]`, always in bounds; `getD` with an arbitrary
default models the same total access. -/
def generate_user_color (user_id : String) : String :=
  let hash := (strBytes user_id).sum
  colors.getD (hash % colors.length) ""

/-! ## The byte-slice panic in `join_room` (room.rs, line 57)

`format!("User {}", &user_id[..8])` panics unless the string is at least
8 bytes long and byte offset 8 is a character boundary. `csize c` is the
UTF-8 width of `c`; `boundary8 cs k` decides whether some prefix of `cs`
has total width exactly `k`. -/

/-- UTF-8 byte width of one character. -/
def csize (c : Char) : Nat := (utf8Bytes c).length

/-- `boundary8 cs k = true` iff some prefix of `cs` has UTF-8 width `k`. -/
def boundary8 : List Char → Nat → Bool
  | _, 0 => true
  | [], _ + 1 => false
  | c :: rest, k + 1 =>
      if csize c ≤ k + 1 then boundary8 rest (k + 1 - csize c) else false

/-- Total UTF-8 width of the first `k` characters. -/
def prefixBytes (cs : List Char) (k : Nat) : Nat :=
  ((cs.take k).map csize).sum

/-- The characters making up the first `k` bytes (defined when `boundary8`
holds). -/
def takeBytes : List Char → Nat → List Char
  | _, 0 => []
  | [], _ + 1 => []
  | c :: rest, k + 1 =>
      if csize c ≤ k + 1 then c :: takeBytes rest (k + 1 - csize c) else []

/-- The default display name `format!("User {}", &user_id[..8])`
(room.rs, line 57); `none` models the slice panic when the identifier is
shorter than 8 bytes or byte 8 falls inside a character. -/
def defaultName (user_id : String) : Option String :=
  if boundary8 user_id.data 8 then
    some ("User " ++ String.mk (takeBytes user_id.data 8))
  else none

/-! ## Association-list model of `HashMap<String, V>` -/

/-- First value stored under key `k`, as `HashMap::get`. -/
def alookup {α : Type} : List (String × α) → String → Option α
  | [], _ => none
  | (k0, v0) :: rest, k => if k0 = k then some v0 else alookup rest k

/-- `HashMap::insert`: replace the entry in place, or append. -/
def ainsert {α : Type} : List (String × α) → String → α → List (String × α)
  | [], k, v => [(k, v)]
  | (k0, v0) :: rest, k, v =>
      if k0 = k then (k, v) :: rest else (k0, v0) :: ainsert rest k v

/-- `HashMap::remove`: drop the entry for `k`. -/
def aremove {α : Type} : List (String × α) → String → List (String × α)
  | [], _ => []
  | (k0, v0) :: rest, k =>
      if k0 = k then rest else (k0, v0) :: aremove rest k

/-! ## Room registry (src/server/src/room.rs) -/

/-- `struct Room` (room.rs, lines 16-21). The broadcast sender `tx` is
modelled by `log`, the list of messages sent on the channel in order. -/
structure Room where
  users : List (String × UserInfo)
  log : List ServerMessage
deriving DecidableEq

/-- `Room::new` (room.rs, lines 24-30): empty user map, fresh channel. -/
def Room.new : Room := ⟨[], []⟩

/-- `struct RoomManager` (room.rs, lines 11-13). -/
structure RoomManager where
  rooms : List (String × Room)
deriving DecidableEq

/-- `RoomManager::new` (room.rs, lines 34-38). -/
def RoomManager.new : RoomManager := ⟨[]⟩

/-- `RoomManager::join_room` (room.rs, lines 42-69): create the room if
absent, insert the participant (panicking per `defaultName` while building
`user_info`), send `UserJoined` on the channel, then subscribe. The
returned `Nat` is the subscription cursor: the log length at `subscribe`
time, so the subscriber sees exactly the messages sent afterwards. -/
def RoomManager.join_room (st : RoomManager) (room_id user_id : String) :
    Option (RoomManager × Nat) :=
  let room := (alookup st.rooms room_id).getD Room.new
  match defaultName user_id with
  | none => none
  | some nm =>
    let user_info : UserInfo := ⟨user_id, nm, generate_user_color user_id⟩
    let users := ainsert room.users user_id user_info
    let log := room.log ++ [ServerMessage.UserJoined user_info]
    some (⟨ainsert st.rooms room_id ⟨users, log⟩⟩, log.length)

/-- `RoomManager::leave_room` (room.rs, lines 72-89): if the room exists,
remove the participant, send `UserLeft`, and drop the room when its user
map became empty. -/
def RoomManager.leave_room (st : RoomManager) (room_id user_id : String) :
    RoomManager :=
  match alookup st.rooms room_id with
  | none => st
  | some room =>
    let users := aremove room.users user_id
    let log := room.log ++ [ServerMessage.UserLeft user_id]
    if users.isEmpty then ⟨aremove st.rooms room_id⟩
    else ⟨ainsert st.rooms room_id ⟨users, log⟩⟩

/-- `RoomManager::get_room_users` (room.rs, lines 92-98). -/
def RoomManager.get_room_users (st : RoomManager) (room_id : String) :
    List UserInfo :=
  match alookup st.rooms room_id with
  | none => []
  | some room => room.users.map Prod.snd

/-- The messages sent so far on a room's channel (empty if the room is
absent). -/
def roomLog (st : RoomManager) (room_id : String) : List ServerMessage :=
  ((alookup st.rooms room_id).map Room.log).getD []

/-! ## Operation sequences on the registry -/

/-- One public registry operation. -/
inductive RegOp where
  | join (room_id user_id : String)
  | leave (room_id user_id : String)
  | getUsers (room_id : String)
deriving DecidableEq

/-- Execute one operation; `none` when a join panics (the sequence does
not complete). -/
def stepOp (st : RoomManager) : RegOp → Option RoomManager
  | RegOp.join r u => (st.join_room r u).map Prod.fst
  | RegOp.leave r u => some (st.leave_room r u)
  | RegOp.getUsers _ => some st

/-- Execute a sequence of operations; `some st` exactly when every
operation completed. -/
def runOps (st : RoomManager) : List RegOp → Option RoomManager
  | [] => some st
  | op :: rest => (stepOp st op).bind fun st1 => runOps st1 rest

/-- Tracked participant count of a room (0 if absent). -/
def roomCount (st : RoomManager) (room_id : String) : Nat :=
  ((alookup st.rooms room_id).map fun r => r.users.length).getD 0

/-- Whether `user_id` is currently a member of `room_id`. -/
def isMember (st : RoomManager) (room_id user_id : String) : Bool :=
  match alookup st.rooms room_id with
  | none => false
  | some room => (alookup room.users user_id).isSome

/-! ## Connection session (src/server/src/main.rs, lines 32-102)

The spec treats wire-format decoding as an external pure step, so a text
frame carries the result of that step (`Option ClientMessage`, `none` for
a frame that fails to decode). A ping frame carries whether the pong
write succeeds (`session.pong(...).is_err()` breaks the pump). -/

/-- One inbound WebSocket frame as the inbound pump sees it
(main.rs, lines 57-87). -/
inductive Frame where
  | text (decoded : Option ClientMessage)
  | binary (data : List Nat)
  | ping (pongOk : Bool)
  | close
  | other
deriving DecidableEq

/-- Messages the inbound pump sends on the room channel while processing
its frame stream (main.rs, lines 56-89): decoded text frames are
translated and sent, binary frames are wrapped in `YjsSync`, a failed
pong or a close frame breaks the loop, everything else is skipped. -/
def inbound_pump (user_id : String) : List Frame → List ServerMessage
  | [] => []
  | Frame.text dec :: rest =>
      match dec with
      | some client_msg =>
          ServerMessage.from_client_message client_msg user_id ::
            inbound_pump user_id rest
      | none => inbound_pump user_id rest
  | Frame.binary bin :: rest =>
      ServerMessage.YjsSync user_id bin :: inbound_pump user_id rest
  | Frame.ping pongOk :: rest =>
      if pongOk then inbound_pump user_id rest else []
  | Frame.close :: _ => []
  | Frame.other :: rest => inbound_pump user_id rest

/-- A call into the room registry made by the connection handler. -/
inductive RegCall where
  | joinCall (room_id user_id : String)
  | leaveCall (room_id user_id : String)
deriving DecidableEq

/-- Registry calls made by the inbound pump task (main.rs, lines 56-89):
the loop body translates and sends messages and answers pings; no arm
calls `leave_room` (or any other registry method), and nothing runs after
the loop ends. -/
def inbound_pump_reg_calls (_frames : List Frame) : List RegCall := []

/-- Registry calls made by the outbound pump task (main.rs, lines 92-99):
the loop only receives from the subscription and writes to the socket; it
makes no registry call, and nothing runs after the loop ends. -/
def outbound_pump_reg_calls : List RegCall := []

/-- All registry calls a connection makes over its lifetime
(main.rs, lines 32-102): one `join_room` before the pumps are spawned,
then whatever the two pump tasks do. -/
def ws_handler_reg_calls (room_id user_id : String) (frames : List Frame) :
    List RegCall :=
  [RegCall.joinCall room_id user_id] ++ inbound_pump_reg_calls frames ++
    outbound_pump_reg_calls

/-! ## JSON wire form (serde derives on protocol.rs)

The wire form is modelled at the JSON-value level: `serde_json` turns a
value into a JSON tree and prints it; printing and reparsing a JSON tree
is the identity on finite numbers and strings, so the tree is the faithful
object of study. `ClientMessage` and `ServerMessage` are adjacently
tagged (`tag = "type"`, `content = "payload"`), `DrawOperation` is
internally tagged (`tag = "op_type"`), `ShapeType` is externally tagged
(unit variants serialize as bare strings). -/

/-- A JSON value; numbers are `ℚ` (every finite double is rational). -/
inductive Json where
  | null
  | str (s : String)
  | num (q : ℚ)
  | arr (elems : List Json)
  | obj (fields : List (String × Json))

/-- Field access in a JSON object. -/
def jlookup : List (String × Json) → String → Option Json
  | [], _ => none
  | (k0, v0) :: rest, k => if k0 = k then some v0 else jlookup rest k

/-- A string-valued field. -/
def getStr (fields : List (String × Json)) (k : String) : Option String :=
  match jlookup fields k with
  | some (Json.str s) => some s
  | _ => none

/-- A number-valued field. -/
def getNum (fields : List (String × Json)) (k : String) : Option ℚ :=
  match jlookup fields k with
  | some (Json.num q) => some q
  | _ => none

/-- An object-valued field. -/
def getObj (fields : List (String × Json)) (k : String) :
    Option (List (String × Json)) :=
  match jlookup fields k with
  | some (Json.obj fs) => some fs
  | _ => none

/-- An array-valued field. -/
def getArr (fields : List (String × Json)) (k : String) :
    Option (List Json) :=
  match jlookup fields k with
  | some (Json.arr xs) => some xs
  | _ => none

/-- Serialization of `ShapeType` (externally tagged unit variants). -/
def encShapeType : ShapeType → Json
  | ShapeType.Rectangle => Json.str "Rectangle"
  | ShapeType.Ellipse => Json.str "Ellipse"
  | ShapeType.Line => Json.str "Line"
  | ShapeType.Arrow => Json.str "Arrow"

/-- Deserialization of `ShapeType`. -/
def decShapeType : Json → Option ShapeType
  | Json.str "Rectangle" => some ShapeType.Rectangle
  | Json.str "Ellipse" => some ShapeType.Ellipse
  | Json.str "Line" => some ShapeType.Line
  | Json.str "Arrow" => some ShapeType.Arrow
  | _ => none

/-- Serialization of `DrawOperation` (internally tagged, `op_type`). -/
def encDrawOp : DrawOperation → Json
  | DrawOperation.PathStart id x y color stroke_width =>
      Json.obj [("op_type", Json.str "PathStart"), ("id", Json.str id),
        ("x", Json.num x), ("y", Json.num y), ("color", Json.str color),
        ("stroke_width", Json.num stroke_width)]
  | DrawOperation.PathPoint id x y =>
      Json.obj [("op_type", Json.str "PathPoint"), ("id", Json.str id),
        ("x", Json.num x), ("y", Json.num y)]
  | DrawOperation.PathEnd id =>
      Json.obj [("op_type", Json.str "PathEnd"), ("id", Json.str id)]
  | DrawOperation.Shape id shape_type x y width height color stroke_width =>
      Json.obj [("op_type", Json.str "Shape"), ("id", Json.str id),
        ("shape_type", encShapeType shape_type), ("x", Json.num x),
        ("y", Json.num y), ("width", Json.num width),
        ("height", Json.num height), ("color", Json.str color),
        ("stroke_width", Json.num stroke_width)]
  | DrawOperation.Erase id =>
      Json.obj [("op_type", Json.str "Erase"), ("id", Json.str id)]
  | DrawOperation.Clear =>
      Json.obj [("op_type", Json.str "Clear")]

/-- Deserialization of `DrawOperation`. -/
def decDrawOp : Json → Option DrawOperation
  | Json.obj fs =>
    match jlookup fs "op_type" with
    | some (Json.str "PathStart") => do
        let id ← getStr fs "id"
        let x ← getNum fs "x"
        let y ← getNum fs "y"
        let color ← getStr fs "color"
        let sw ← getNum fs "stroke_width"
        return DrawOperation.PathStart id x y color sw
    | some (Json.str "PathPoint") => do
        let id ← getStr fs "id"
        let x ← getNum fs "x"
        let y ← getNum fs "y"
        return DrawOperation.PathPoint id x y
    | some (Json.str "PathEnd") => do
        let id ← getStr fs "id"
        return DrawOperation.PathEnd id
    | some (Json.str "Shape") => do
        let id ← getStr fs "id"
        let stj ← jlookup fs "shape_type"
        let st ← decShapeType stj
        let x ← getNum fs "x"
        let y ← getNum fs "y"
        let width ← getNum fs "width"
        let height ← getNum fs "height"
        let color ← getStr fs "color"
        let sw ← getNum fs "stroke_width"
        return DrawOperation.Shape id st x y width height color sw
    | some (Json.str "Erase") => do
        let id ← getStr fs "id"
        return DrawOperation.Erase id
    | some (Json.str "Clear") => some DrawOperation.Clear
    | _ => none
  | _ => none

/-- Serialization of `ClientMessage` (adjacently tagged). -/
def encClient : ClientMessage → Json
  | ClientMessage.CursorMove x y =>
      Json.obj [("type", Json.str "CursorMove"),
        ("payload", Json.obj [("x", Json.num x), ("y", Json.num y)])]
  | ClientMessage.Draw operation =>
      Json.obj [("type", Json.str "Draw"),
        ("payload", Json.obj [("operation", encDrawOp operation)])]
  | ClientMessage.SyncRequest =>
      Json.obj [("type", Json.str "SyncRequest")]
  | ClientMessage.UpdateName name =>
      Json.obj [("type", Json.str "UpdateName"),
        ("payload", Json.obj [("name", Json.str name)])]

/-- Deserialization of `ClientMessage`. -/
def decClient : Json → Option ClientMessage
  | Json.obj fs =>
    match jlookup fs "type" with
    | some (Json.str "CursorMove") => do
        let p ← getObj fs "payload"
        let x ← getNum p "x"
        let y ← getNum p "y"
        return ClientMessage.CursorMove x y
    | some (Json.str "Draw") => do
        let p ← getObj fs "payload"
        let oj ← jlookup p "operation"
        let op ← decDrawOp oj
        return ClientMessage.Draw op
    | some (Json.str "SyncRequest") => some ClientMessage.SyncRequest
    | some (Json.str "UpdateName") => do
        let p ← getObj fs "payload"
        let name ← getStr p "name"
        return ClientMessage.UpdateName name
    | _ => none
  | _ => none

/-- Serialization of `UserInfo`. -/
def encUser (u : UserInfo) : Json :=
  Json.obj [("id", Json.str u.id), ("name", Json.str u.name),
    ("color", Json.str u.color)]

/-- Deserialization of `UserInfo`. -/
def decUser : Json → Option UserInfo
  | Json.obj fs => do
      let id ← getStr fs "id"
      let name ← getStr fs "name"
      let color ← getStr fs "color"
      return UserInfo.mk id name color
  | _ => none

/-- Elementwise deserialization of `Vec<UserInfo>`. -/
def decUserList : List Json → Option (List UserInfo)
  | [] => some []
  | j :: rest => do
      let u ← decUser j
      let us ← decUserList rest
      return u :: us

/-- Deserialization of one `u8`: the number must be integral and in
range, as `serde_json` requires. -/
def decByte : Json → Option Nat
  | Json.num q =>
      if q.den = 1 ∧ 0 ≤ q.num ∧ q.num < 256 then some q.num.toNat else none
  | _ => none

/-- Elementwise deserialization of `Vec<u8>`. -/
def decByteList : List Json → Option (List Nat)
  | [] => some []
  | j :: rest => do
      let b ← decByte j
      let bs ← decByteList rest
      return b :: bs

/-- Serialization of `ServerMessage` (adjacently tagged). -/
def encServer : ServerMessage → Json
  | ServerMessage.UserJoined user =>
      Json.obj [("type", Json.str "UserJoined"),
        ("payload", Json.obj [("user", encUser user)])]
  | ServerMessage.UserLeft user_id =>
      Json.obj [("type", Json.str "UserLeft"),
        ("payload", Json.obj [("user_id", Json.str user_id)])]
  | ServerMessage.CursorUpdate user_id x y =>
      Json.obj [("type", Json.str "CursorUpdate"),
        ("payload", Json.obj [("user_id", Json.str user_id),
          ("x", Json.num x), ("y", Json.num y)])]
  | ServerMessage.DrawUpdate user_id operation =>
      Json.obj [("type", Json.str "DrawUpdate"),
        ("payload", Json.obj [("user_id", Json.str user_id),
          ("operation", encDrawOp operation)])]
  | ServerMessage.RoomState users =>
      Json.obj [("type", Json.str "RoomState"),
        ("payload", Json.obj [("users", Json.arr (users.map encUser))])]
  | ServerMessage.YjsSync user_id data =>
      Json.obj [("type", Json.str "YjsSync"),
        ("payload", Json.obj [("user_id", Json.str user_id),
          ("data", Json.arr (data.map (fun b : Nat => Json.num (b : ℚ))))])]
  | ServerMessage.Error message =>
      Json.obj [("type", Json.str "Error"),
        ("payload", Json.obj [("message", Json.str message)])]

/-- Deserialization of `ServerMessage`. -/
def decServer : Json → Option ServerMessage
  | Json.obj fs =>
    match jlookup fs "type" with
    | some (Json.str "UserJoined") => do
        let p ← getObj fs "payload"
        let uj ← jlookup p "user"
        let u ← decUser uj
        return ServerMessage.UserJoined u
    | some (Json.str "UserLeft") => do
        let p ← getObj fs "payload"
        let uid ← getStr p "user_id"
        return ServerMessage.UserLeft uid
    | some (Json.str "CursorUpdate") => do
        let p ← getObj fs "payload"
        let uid ← getStr p "user_id"
        let x ← getNum p "x"
        let y ← getNum p "y"
        return ServerMessage.CursorUpdate uid x y
    | some (Json.str "DrawUpdate") => do
        let p ← getObj fs "payload"
        let uid ← getStr p "user_id"
        let oj ← jlookup p "operation"
        let op ← decDrawOp oj
        return ServerMessage.DrawUpdate uid op
    | some (Json.str "RoomState") => do
        let p ← getObj fs "payload"
        let uj ← getArr p "users"
        let us ← decUserList uj
        return ServerMessage.RoomState us
    | some (Json.str "YjsSync") => do
        let p ← getObj fs "payload"
        let uid ← getStr p "user_id"
        let dj ← getArr p "data"
        let data ← decByteList dj
        return ServerMessage.YjsSync uid data
    | some (Json.str "Error") => do
        let p ← getObj fs "payload"
        let message ← getStr p "message"
        return ServerMessage.Error message
    | _ => none
  | _ => none

/-- Well-formedness of a server event: byte payloads are in range
(client events carry no byte payloads). -/
def wfServer : ServerMessage → Bool
  | ServerMessage.YjsSync _ data => data.all fun b => b < 256
  | _ => true

/-! ## Association-list lemmas -/

/-- The keys of an association list are pairwise distinct. This is a
`HashMap` invariant; it holds for all reachable registry states. -/
def keysNodup {α : Type} (l : List (String × α)) : Prop :=
  (l.map Prod.fst).Nodup

/-- Invariant of reachable registry states: room keys are unique, each
room's user keys are unique, and no room is empty (spec §3). -/
def RMInv (st : RoomManager) : Prop :=
  keysNodup st.rooms ∧ ∀ p ∈ st.rooms, keysNodup p.2.users ∧ p.2.users ≠ []

/-- Whether an operation addresses room `r` (and is a join or a leave). -/
def onRoom (r : String) : RegOp → Bool
  | RegOp.join r2 _ => r2 == r
  | RegOp.leave r2 _ => r2 == r
  | RegOp.getUsers _ => false

/-- A well-formed call sequence: every join is by a participant not
currently in the room (and completes), every leave is by a current
member. -/
def wfOps (st : RoomManager) : List RegOp → Bool
  | [] => true
  | RegOp.join r u :: rest =>
      !(isMember st r u) &&
        (match st.join_room r u with
         | some (st1, _) => wfOps st1 rest
         | none => false)
  | RegOp.leave r u :: rest =>
      isMember st r u && wfOps (st.leave_room r u) rest
  | RegOp.getUsers _ :: rest => wfOps st rest

/-- Number of `joinRoom` calls for room `r` in a sequence. -/
def countJoins (r : String) (ops : List RegOp) : Nat :=
  (ops.filter fun op =>
    match op with
    | RegOp.join r2 _ => r2 == r
    | _ => false).length

/-- Number of `leaveRoom` calls for room `r` in a sequence. -/
def countLeaves (r : String) (ops : List RegOp) : Nat :=
  (ops.filter fun op =>
    match op with
    | RegOp.leave r2 _ => r2 == r
    | _ => false).length

/-- A concrete one-member room, as left by a completed join (the channel
log is irrelevant to the scenario and kept empty). -/
def uiEx : UserInfo := ⟨"user0001", "User user0001", "#FF6B6B"⟩

/-- A registry holding the single room `"r1"` with the single member
`"user0001"`. -/
def stC6 : RoomManager := ⟨[("r1", ⟨[("user0001", uiEx)], []⟩)]⟩

lemma alookup_mem {α : Type} {l : List (String × α)} {k : String} {v : α}
    (h : alookup l k = some v) : (k, v) ∈ l := by
  induction l with
  | nil => simp [alookup] at h
  | cons p rest ih =>
    obtain ⟨k0, v0⟩ := p
    by_cases hk : k0 = k
    · subst hk
      simp [alookup] at h
      simp [h]
    · simp [alookup, hk] at h
      exact List.mem_cons_of_mem _ (ih h)

lemma alookup_ainsert_self {α : Type} {l : List (String × α)} {k : String}
    {v : α} : alookup (ainsert l k v) k = some v := by
  induction l with
  | nil => simp [ainsert, alookup]
  | cons p rest ih =>
    obtain ⟨k0, v0⟩ := p
    by_cases hk : k0 = k
    · simp [ainsert, hk, alookup]
    · simp [ainsert, hk, alookup, ih]

lemma alookup_ainsert_ne {α : Type} {l : List (String × α)} {k k2 : String}
    {v : α} (h : k ≠ k2) : alookup (ainsert l k v) k2 = alookup l k2 := by
  induction l with
  | nil => simp [ainsert, alookup, h]
  | cons p rest ih =>
    obtain ⟨k0, v0⟩ := p
    by_cases hk : k0 = k
    · subst hk
      simp [ainsert, alookup, h]
    · simp [ainsert, hk, alookup, ih]

lemma ainsert_length_absent {α : Type} {l : List (String × α)} {k : String}
    {v : α} (h : alookup l k = none) :
    (ainsert l k v).length = l.length + 1 := by
  induction l with
  | nil => simp [ainsert]
  | cons p rest ih =>
    obtain ⟨k0, v0⟩ := p
    by_cases hk : k0 = k
    · simp [alookup, hk] at h
    · simp [alookup, hk] at h
      simp [ainsert, hk, ih h]

lemma ainsert_length_present {α : Type} {l : List (String × α)} {k : String}
    {v w : α} (h : alookup l k = some w) :
    (ainsert l k v).length = l.length := by
  induction l with
  | nil => simp [alookup] at h
  | cons p rest ih =>
    obtain ⟨k0, v0⟩ := p
    by_cases hk : k0 = k
    · simp [ainsert, hk]
    · simp [alookup, hk] at h
      simp [ainsert, hk, ih h]

lemma ainsert_ne_nil {α : Type} {l : List (String × α)} {k : String} {v : α} :
    ainsert l k v ≠ [] := by
  cases l with
  | nil => simp [ainsert]
  | cons p rest =>
    obtain ⟨k0, v0⟩ := p
    by_cases hk : k0 = k <;> simp [ainsert, hk]

lemma mem_ainsert {α : Type} {p : String × α} {l : List (String × α)}
    {k : String} {v : α} (h : p ∈ ainsert l k v) : p = (k, v) ∨ p ∈ l := by
  induction l with
  | nil => simp [ainsert] at h; simp [h]
  | cons q rest ih =>
    obtain ⟨k0, v0⟩ := q
    by_cases hk : k0 = k
    · simp [ainsert, hk] at h
      rcases h with h | h
      · exact Or.inl h
      · exact Or.inr (List.mem_cons_of_mem _ h)
    · simp [ainsert, hk] at h
      rcases h with h | h
      · exact Or.inr (by simp [h])
      · rcases ih h with h1 | h1
        · exact Or.inl h1
        · exact Or.inr (List.mem_cons_of_mem _ h1)

lemma keysNodup_ainsert {α : Type} {l : List (String × α)} {k : String}
    {v : α} (h : keysNodup l) : keysNodup (ainsert l k v) := by
  induction l with
  | nil => simp [ainsert, keysNodup]
  | cons p rest ih =>
    obtain ⟨k0, v0⟩ := p
    unfold keysNodup at h
    simp at h
    by_cases hk : k0 = k
    · subst hk
      unfold keysNodup
      simp [ainsert]
      exact h
    · unfold keysNodup
      simp [ainsert, hk]
      refine ⟨fun v2 hm => ?_, ih h.2⟩
      rcases mem_ainsert hm with h1 | h1
      · exact hk ((Prod.mk.injEq _ _ _ _).mp h1).1
      · exact h.1 v2 h1
  
lemma aremove_of_none {α : Type} {l : List (String × α)} {k : String}
    (h : alookup l k = none) : aremove l k = l := by
  induction l with
  | nil => rfl
  | cons p rest ih =>
    obtain ⟨k0, v0⟩ := p
    by_cases hk : k0 = k
    · simp [alookup, hk] at h
    · simp [alookup, hk] at h
      simp [aremove, hk, ih h]

lemma aremove_length {α : Type} {l : List (String × α)} {k : String} {v : α}
    (h : alookup l k = some v) : (aremove l k).length + 1 = l.length := by
  induction l with
  | nil => simp [alookup] at h
  | cons p rest ih =>
    obtain ⟨k0, v0⟩ := p
    by_cases hk : k0 = k
    · simp [aremove, hk]
    · simp [alookup, hk] at h
      simp [aremove, hk, ih h]

lemma aremove_sublist {α : Type} (l : List (String × α)) (k : String) :
    List.Sublist (aremove l k) l := by
  induction l with
  | nil => simp [aremove]
  | cons p rest ih =>
    obtain ⟨k0, v0⟩ := p
    by_cases hk : k0 = k
    · simp [aremove, hk]
    · simp only [aremove, hk, if_false]
      exact List.Sublist.cons₂ _ ih

lemma keysNodup_aremove {α : Type} {l : List (String × α)} {k : String}
    (h : keysNodup l) : keysNodup (aremove l k) :=
  List.Nodup.sublist (List.Sublist.map Prod.fst (aremove_sublist l k)) h

lemma alookup_aremove_self {α : Type} {l : List (String × α)} {k : String}
    (h : keysNodup l) : alookup (aremove l k) k = none := by
  induction l with
  | nil => rfl
  | cons p rest ih =>
    obtain ⟨k0, v0⟩ := p
    unfold keysNodup at h
    simp at h
    by_cases hk : k0 = k
    · subst hk
      simp [aremove]
      cases hr : alookup rest k0 with
      | none => rfl
      | some v2 => exact absurd (alookup_mem hr) (h.1 v2)
    · simp [aremove, hk, alookup, hk]
      exact ih h.2

lemma alookup_aremove_ne {α : Type} {l : List (String × α)} {k k2 : String}
    (h : k ≠ k2) : alookup (aremove l k) k2 = alookup l k2 := by
  induction l with
  | nil => rfl
  | cons p rest ih =>
    obtain ⟨k0, v0⟩ := p
    by_cases hk : k0 = k
    · subst hk
      simp [aremove, alookup, h]
    · simp [aremove, hk, alookup, ih]

lemma isEmpty_false_of_ne_nil {α : Type} {l : List α} (h : l ≠ []) :
    l.isEmpty = false := by
  cases l with
  | nil => exact absurd rfl h
  | cons a rest => rfl

lemma ne_nil_of_isEmpty_false {α : Type} {l : List α}
    (h : l.isEmpty = false) : l ≠ [] := by
  cases l with
  | nil => simp [List.isEmpty] at h
  | cons a rest => simp

lemma eq_nil_of_isEmpty_true {α : Type} {l : List α}
    (h : l.isEmpty = true) : l = [] := by
  cases l with
  | nil => rfl
  | cons a rest => simp [List.isEmpty] at h

/-! ## Characterizations of the registry operations -/

lemma join_room_none {st : RoomManager} {rid uid : String}
    (hd : defaultName uid = none) : st.join_room rid uid = none := by
  simp [RoomManager.join_room, hd]

lemma join_room_eq {st : RoomManager} {rid uid nm : String}
    (hd : defaultName uid = some nm) :
    st.join_room rid uid =
      some (⟨ainsert st.rooms rid
          ⟨ainsert ((alookup st.rooms rid).getD Room.new).users uid
              ⟨uid, nm, generate_user_color uid⟩,
            ((alookup st.rooms rid).getD Room.new).log ++
              [ServerMessage.UserJoined ⟨uid, nm, generate_user_color uid⟩]⟩⟩,
        (((alookup st.rooms rid).getD Room.new).log ++
          [ServerMessage.UserJoined ⟨uid, nm, generate_user_color uid⟩]).length) := by
  simp [RoomManager.join_room, hd]

lemma leave_room_none {st : RoomManager} {rid uid : String}
    (h : alookup st.rooms rid = none) : st.leave_room rid uid = st := by
  simp [RoomManager.leave_room, h]

lemma leave_room_some {st : RoomManager} {rid uid : String} {room : Room}
    (h : alookup st.rooms rid = some room) :
    st.leave_room rid uid =
      if (aremove room.users uid).isEmpty then ⟨aremove st.rooms rid⟩
      else ⟨ainsert st.rooms rid ⟨aremove room.users uid,
        room.log ++ [ServerMessage.UserLeft uid]⟩⟩ := by
  simp [RoomManager.leave_room, h]

/-! ## Invariant preservation -/

lemma RMInv_new : RMInv RoomManager.new := by
  constructor
  · simp [RoomManager.new, keysNodup]
  · intro p hp
    simp [RoomManager.new] at hp

lemma join_room_inv {st st1 : RoomManager} {rid uid : String} {cur : Nat}
    (h : RMInv st) (hj : st.join_room rid uid = some (st1, cur)) :
    RMInv st1 := by
  cases hd : defaultName uid with
  | none =>
    rw [join_room_none hd] at hj
    exact Option.noConfusion hj
  | some nm =>
    rw [join_room_eq hd] at hj
    have hp := Option.some.inj hj
    rw [Prod.ext_iff] at hp
    obtain ⟨h1, _h2⟩ := hp
    subst h1
    constructor
    · exact keysNodup_ainsert h.1
    · intro p hp
      rcases mem_ainsert hp with h1 | h1
      · subst h1
        constructor
        · apply keysNodup_ainsert
          cases hr : alookup st.rooms rid with
          | none => simp [hr, Room.new, keysNodup]
          | some room => simpa [hr] using (h.2 _ (alookup_mem hr)).1
        · exact ainsert_ne_nil
      · exact h.2 p h1

lemma leave_room_inv {st : RoomManager} {rid uid : String} (h : RMInv st) :
    RMInv (st.leave_room rid uid) := by
  cases hr : alookup st.rooms rid with
  | none =>
    rw [leave_room_none hr]
    exact h
  | some room =>
    rw [leave_room_some hr]
    by_cases he : (aremove room.users uid).isEmpty
    · simp only [he, if_true]
      constructor
      · exact keysNodup_aremove h.1
      · intro p hp
        exact h.2 p (List.Sublist.subset (aremove_sublist _ _) hp)
    · simp only [he, if_false]
      constructor
      · exact keysNodup_ainsert h.1
      · intro p hp
        rcases mem_ainsert hp with h1 | h1
        · subst h1
          constructor
          · exact keysNodup_aremove (h.2 _ (alookup_mem hr)).1
          · exact ne_nil_of_isEmpty_false (by simpa using he)
        · exact h.2 p h1

lemma stepOp_inv {st st1 : RoomManager} {op : RegOp} (h : RMInv st)
    (hs : stepOp st op = some st1) : RMInv st1 := by
  cases op with
  | join r u =>
    simp [stepOp, Option.map_eq_some'] at hs
    obtain ⟨curA, hj⟩ := hs
    exact join_room_inv h hj
  | leave r u =>
    simp [stepOp] at hs
    subst hs
    exact leave_room_inv h
  | getUsers r =>
    simp [stepOp] at hs
    subst hs
    exact h

lemma runOps_inv {ops : List RegOp} : ∀ {st st1 : RoomManager}, RMInv st →
    runOps st ops = some st1 → RMInv st1 := by
  induction ops with
  | nil =>
    intro st st1 h hr
    simp [runOps] at hr
    subst hr
    exact h
  | cons op rest ih =>
    intro st st1 h hr
    simp [runOps, Option.bind_eq_some] at hr
    obtain ⟨st2, hs, hrest⟩ := hr
    exact ih (stepOp_inv h hs) hrest

/-! ## Participant-count lemmas -/

lemma roomCount_eq_some {st : RoomManager} {rid : String} {room : Room}
    (h : alookup st.rooms rid = some room) :
    roomCount st rid = room.users.length := by
  simp [roomCount, h]

lemma roomCount_eq_none {st : RoomManager} {rid : String}
    (h : alookup st.rooms rid = none) : roomCount st rid = 0 := by
  simp [roomCount, h]

lemma join_room_count {st st1 : RoomManager} {rid uid : String} {cur : Nat}
    (hm : isMember st rid uid = false)
    (hj : st.join_room rid uid = some (st1, cur)) :
    roomCount st1 rid = roomCount st rid + 1 := by
  cases hd : defaultName uid with
  | none =>
    rw [join_room_none hd] at hj
    exact Option.noConfusion hj
  | some nm =>
    rw [join_room_eq hd] at hj
    have hp := Option.some.inj hj
    rw [Prod.ext_iff] at hp
    obtain ⟨h1, _h2⟩ := hp
    subst h1
    cases hr : alookup st.rooms rid with
    | none =>
      simp [roomCount, hr, alookup_ainsert_self, ainsert, Room.new]
    | some room0 =>
      have hn : alookup room0.users uid = none := by
        cases hn2 : alookup room0.users uid with
        | none => rfl
        | some v => simp [isMember, hr, hn2] at hm
      simp [roomCount, hr, alookup_ainsert_self, ainsert_length_absent hn]

lemma leave_room_count {st : RoomManager} {rid uid : String}
    (hInv : RMInv st) (hm : isMember st rid uid = true) :
    roomCount (st.leave_room rid uid) rid + 1 = roomCount st rid := by
  cases hr : alookup st.rooms rid with
  | none => simp [isMember, hr] at hm
  | some room =>
    have hv : ∃ v, alookup room.users uid = some v := by
      cases hn : alookup room.users uid with
      | none => simp [isMember, hr, hn] at hm
      | some v => exact ⟨v, rfl⟩
    obtain ⟨v, hv⟩ := hv
    have hlen := aremove_length hv
    rw [leave_room_some hr]
    by_cases he : (aremove room.users uid).isEmpty
    · simp only [he, if_true]
      have h0 : alookup (aremove st.rooms rid) rid = none :=
        alookup_aremove_self hInv.1
      rw [roomCount_eq_some hr]
      have : roomCount (⟨aremove st.rooms rid⟩ : RoomManager) rid = 0 :=
        roomCount_eq_none h0
      rw [this]
      rw [eq_nil_of_isEmpty_true he] at hlen
      simpa using hlen
    · rw [if_neg he]
      rw [roomCount_eq_some hr]
      rw [roomCount_eq_some (alookup_ainsert_self (l := st.rooms) (k := rid))]
      exact hlen

/-- Core counting lemma: over a well-formed sequence of operations all on
room `r`, the tracked count moves by joins minus leaves. -/
lemma count_run {r : String} {ops : List RegOp} :
    ∀ {st st1 : RoomManager}, RMInv st → ops.all (onRoom r) = true →
    wfOps st ops = true → runOps st ops = some st1 →
    (roomCount st1 r : ℤ) =
      roomCount st r + countJoins r ops - countLeaves r ops := by
  induction ops with
  | nil =>
    intro st st1 _ _ _ hr
    simp [runOps] at hr
    subst hr
    simp [countJoins, countLeaves]
  | cons op rest ih =>
    intro st st1 hInv hall hwf hr
    rw [List.all_cons, Bool.and_eq_true] at hall
    obtain ⟨hop, hall⟩ := hall
    simp [runOps, Option.bind_eq_some] at hr
    obtain ⟨st2, hs, hrest⟩ := hr
    cases op with
    | join r2 u =>
      have hr2 : r2 = r := by simpa [onRoom] using hop
      subst hr2
      simp only [wfOps, Bool.and_eq_true, Bool.not_eq_true'] at hwf
      obtain ⟨hmem, hwf⟩ := hwf
      simp [stepOp, Option.map_eq_some'] at hs
      obtain ⟨curA, hj⟩ := hs
      rw [hj] at hwf
      have hwf2 : wfOps st2 rest = true := hwf
      have hcount := join_room_count hmem hj
      have hrec := ih (join_room_inv hInv hj) hall hwf2 hrest
      rw [hrec, hcount]
      simp [countJoins, countLeaves]
      ring
    | leave r2 u =>
      have hr2 : r2 = r := by simpa [onRoom] using hop
      subst hr2
      simp only [wfOps, Bool.and_eq_true] at hwf
      obtain ⟨hmem, hwf⟩ := hwf
      simp [stepOp] at hs
      subst hs
      have hcount := leave_room_count hInv hmem
      have hrec := ih (leave_room_inv hInv) hall hwf hrest
      rw [hrec]
      have hle : (roomCount (RoomManager.leave_room st r2 u) r2 : ℤ) =
          roomCount st r2 - 1 := by omega
      rw [hle]
      simp [countJoins, countLeaves]
      ring
    | getUsers r3 =>
      simp [onRoom] at hop

/-! ## Character-boundary lemma for the slice panic -/

lemma boundary8_iff : ∀ (cs : List Char) (b : Nat),
    boundary8 cs b = true ↔ ∃ k, prefixBytes cs k = b := by
  intro cs
  induction cs with
  | nil =>
    intro b
    cases b with
    | zero => simp [boundary8, prefixBytes]
    | succ b1 => simp [boundary8, prefixBytes]
  | cons c rest ih =>
    intro b
    cases b with
    | zero =>
      simp only [boundary8, true_iff]
      exact ⟨0, by simp [prefixBytes]⟩
    | succ b1 =>
      simp only [boundary8]
      by_cases hc : csize c ≤ b1 + 1
      · rw [if_pos hc, ih]
        constructor
        · rintro ⟨k, hk⟩
          refine ⟨k + 1, ?_⟩
          simp [prefixBytes, List.take_succ_cons] at hk ⊢
          omega
        · rintro ⟨k, hk⟩
          cases k with
          | zero => simp [prefixBytes] at hk
          | succ k1 =>
            refine ⟨k1, ?_⟩
            simp [prefixBytes, List.take_succ_cons] at hk ⊢
            omega
      · rw [if_neg hc]
        simp only [Bool.false_eq_true, false_iff, not_exists]
        intro k hk
        cases k with
        | zero => simp [prefixBytes] at hk
        | succ k1 =>
          simp [prefixBytes, List.take_succ_cons] at hk
          omega

/-! ## Round-trip lemmas for the JSON wire form -/

lemma decShapeType_enc (t : ShapeType) :
    decShapeType (encShapeType t) = some t := by
  cases t <;> rfl

lemma decDrawOp_enc (op : DrawOperation) :
    decDrawOp (encDrawOp op) = some op := by
  cases op with
  | PathStart id x y color sw => rfl
  | PathPoint id x y => rfl
  | PathEnd id => rfl
  | Shape id t x y w h color sw => cases t <;> rfl
  | Erase id => rfl
  | Clear => rfl

lemma decUser_enc (u : UserInfo) : decUser (encUser u) = some u := rfl

lemma decUserList_enc (us : List UserInfo) :
    decUserList (us.map encUser) = some us := by
  induction us with
  | nil => rfl
  | cons u rest ih => simp [List.map_cons, decUserList, decUser_enc, ih]

lemma decByte_num {b : Nat} (hb : b < 256) :
    decByte (Json.num b) = some b := by
  have hden : ((b : ℚ)).den = 1 := Rat.den_natCast b
  have hnum : ((b : ℚ)).num = (b : ℤ) := Rat.num_natCast b
  have hcond : ((b : ℚ)).den = 1 ∧ 0 ≤ ((b : ℚ)).num ∧ ((b : ℚ)).num < 256 := by
    refine ⟨hden, ?_, ?_⟩
    · rw [hnum]
      exact Int.natCast_nonneg b
    · rw [hnum]
      exact_mod_cast hb
  simp only [decByte]
  rw [if_pos hcond, hnum]
  simp [Int.toNat_natCast]

lemma decByteList_enc {data : List Nat}
    (h : data.all (fun b => b < 256) = true) :
    decByteList (data.map (fun b : Nat => Json.num (b : ℚ))) = some data := by
  induction data with
  | nil => rfl
  | cons b rest ih =>
    rw [List.all_cons, Bool.and_eq_true] at h
    obtain ⟨hb, hrest⟩ := h
    have hb2 : b < 256 := by simpa using hb
    simp [List.map_cons, decByteList, decByte_num hb2, ih hrest]

/-! ## Claims -/

/-- C1: the spec requires that when either pump terminates, `leaveRoom` is
invoked exactly once for the connection's participant. The code never
calls `leave_room` on any path: for every connection and every inbound
frame stream — including one that ends with a close frame — the
connection's registry-call trace contains exactly one join and zero leave
calls, so the participant is never deregistered. -/
theorem C1_leave_never_called (rid uid : String) (frames : List Frame) :
    (ws_handler_reg_calls rid uid frames).count
      (RegCall.leaveCall rid uid) = 0 ∧
    (ws_handler_reg_calls rid uid frames).count
      (RegCall.joinCall rid uid) = 1 := by
  constructor
  · simp [ws_handler_reg_calls, inbound_pump_reg_calls,
      outbound_pump_reg_calls, List.count_cons, List.count_nil]
  · simp [ws_handler_reg_calls, inbound_pump_reg_calls,
      outbound_pump_reg_calls, List.count_cons, List.count_nil]

/-- C2: the spec requires a SyncRequest to be answered with a RoomState
carrying the Registry's current participant list. The translation always
produces `RoomState []` without consulting the registry, yet after a
completed join of `"user0001"` into `"r1"` the registry's user list for
`"r1"` is nonempty — so the published users field is not the registry's
list. -/
theorem C2_syncrequest_ignores_registry :
    (∀ uid : String,
      ServerMessage.from_client_message ClientMessage.SyncRequest uid =
        ServerMessage.RoomState []) ∧
    ((runOps RoomManager.new [RegOp.join "r1" "user0001"]).map fun st =>
      st.get_room_users "r1").getD [] ≠ [] := by
  constructor
  · intro uid
    rfl
  · decide

/-- C3: the spec requires the UpdateName translation to stamp the color
via Color Assignment, never blank. The code emits `UserJoined` with the
empty color string for every identifier and every name, while
`generate_user_color` never returns the empty string. -/
theorem C3_updatename_blank_color :
    (∀ uid name : String,
      ServerMessage.from_client_message (ClientMessage.UpdateName name) uid =
        ServerMessage.UserJoined ⟨uid, name, ""⟩) ∧
    (∀ uid : String, generate_user_color uid ≠ "") := by
  constructor
  · intro uid name
    rfl
  · intro uid
    have key : ∀ n : Nat, n < 10 → colors.getD n "" ≠ "" := by decide
    exact key _ (Nat.mod_lt _ (by decide))

/-- C4: after every completed sequence of registry operations, every room
present in the registry has at least one participant, and a join to an
absent room identifier creates a fresh room containing exactly the joiner
and exactly its own UserJoined event — no state survives removal. -/
theorem C4_room_absent_iff_empty (ops : List RegOp) (st : RoomManager)
    (hr : runOps RoomManager.new ops = some st) :
    (∀ rid room, alookup st.rooms rid = some room → room.users ≠ []) ∧
    (∀ rid uid st2 cur, alookup st.rooms rid = none →
      st.join_room rid uid = some (st2, cur) →
      ∃ ui : UserInfo, alookup st2.rooms rid =
        some ⟨[(uid, ui)], [ServerMessage.UserJoined ui]⟩) := by
  have hInv := runOps_inv RMInv_new hr
  constructor
  · intro rid room hl
    exact (hInv.2 _ (alookup_mem hl)).2
  · intro rid uid st2 cur hnone hj
    cases hd : defaultName uid with
    | none =>
      rw [join_room_none hd] at hj
      exact Option.noConfusion hj
    | some nm =>
      rw [join_room_eq hd] at hj
      have hp := Option.some.inj hj
      rw [Prod.ext_iff] at hp
      obtain ⟨h1, _h2⟩ := hp
      subst h1
      refine ⟨⟨uid, nm, generate_user_color uid⟩, ?_⟩
      simp [hnone, alookup_ainsert_self, Room.new, ainsert]

/-- Witness for C4 at a concrete completed sequence. -/
theorem C4_witness :
    ∃ st, runOps RoomManager.new
        [RegOp.join "r1" "user0001", RegOp.leave "r1" "user0001",
         RegOp.join "r2" "user0002"] = some st ∧
      (∀ rid room, alookup st.rooms rid = some room → room.users ≠ []) := by
  cases hr : runOps RoomManager.new
      [RegOp.join "r1" "user0001", RegOp.leave "r1" "user0001",
       RegOp.join "r2" "user0002"] with
  | none => exact absurd hr (by decide)
  | some st => exact ⟨st, rfl, (C4_room_absent_iff_empty _ _ hr).1⟩

/-- C5 counterexample: joining the same room twice with the same
identifier is a sequence of two joins and zero leaves after which the
tracked count is 1, not 2 − 0: the map insert overwrites, so the literal
"count equals joins minus leaves for every sequence" fails. -/
theorem C5_counterexample :
    ((runOps RoomManager.new
        [RegOp.join "r1" "user0001", RegOp.join "r1" "user0001"]).map
      fun st => roomCount st "r1").getD 0 = 1 ∧
    countJoins "r1"
      [RegOp.join "r1" "user0001", RegOp.join "r1" "user0001"] = 2 ∧
    countLeaves "r1"
      [RegOp.join "r1" "user0001", RegOp.join "r1" "user0001"] = 0 ∧
    (1 : ℤ) ≠ 2 - 0 := by decide

/-- C5 (amended): for every sequence of joins and leaves on a single room
in which each join is by a participant not currently in the room and each
leave is by a current member, the tracked participant count equals joins
minus leaves (and in particular never goes negative). -/
theorem C5_joins_minus_leaves_amended (r : String) (ops : List RegOp)
    (st : RoomManager) (hall : ops.all (onRoom r) = true)
    (hwf : wfOps RoomManager.new ops = true)
    (hr : runOps RoomManager.new ops = some st) :
    (roomCount st r : ℤ) = countJoins r ops - countLeaves r ops ∧
    countLeaves r ops ≤ countJoins r ops := by
  have h := count_run RMInv_new hall hwf hr
  have h0 : roomCount RoomManager.new r = 0 := by
    simp [roomCount, RoomManager.new, alookup]
  rw [h0] at h
  constructor
  · simpa using h
  · omega

/-- Witness for the amended C5 at a concrete well-formed sequence. -/
theorem C5_witness :
    ([RegOp.join "r1" "user0001", RegOp.join "r1" "user0002",
      RegOp.leave "r1" "user0001"].all (onRoom "r1") = true) ∧
    wfOps RoomManager.new
      [RegOp.join "r1" "user0001", RegOp.join "r1" "user0002",
       RegOp.leave "r1" "user0001"] = true ∧
    ∃ st, runOps RoomManager.new
        [RegOp.join "r1" "user0001", RegOp.join "r1" "user0002",
         RegOp.leave "r1" "user0001"] = some st ∧
      (roomCount st "r1" : ℤ) =
        countJoins "r1"
          [RegOp.join "r1" "user0001", RegOp.join "r1" "user0002",
           RegOp.leave "r1" "user0001"] -
        countLeaves "r1"
          [RegOp.join "r1" "user0001", RegOp.join "r1" "user0002",
           RegOp.leave "r1" "user0001"] := by
  refine ⟨by decide, by decide, ?_⟩
  cases hr : runOps RoomManager.new
      [RegOp.join "r1" "user0001", RegOp.join "r1" "user0002",
       RegOp.leave "r1" "user0001"] with
  | none => exact absurd hr (by decide)
  | some st =>
    exact ⟨st, rfl,
      (C5_joins_minus_leaves_amended "r1" _ st (by decide) (by decide) hr).1⟩

/-- C6 counterexample: leaving room `"r1"` as `"intruder9"`, who is not a
member, leaves the user map untouched but still publishes a `UserLeft`
event on the room's channel — the claim's "no event is published" fails. -/
theorem C6_counterexample :
    (stC6.leave_room "r1" "intruder9").rooms =
      [("r1", ⟨[("user0001", uiEx)],
        [ServerMessage.UserLeft "intruder9"]⟩)] ∧
    roomLog stC6 "r1" = [] ∧
    roomLog (stC6.leave_room "r1" "intruder9") "r1" =
      [ServerMessage.UserLeft "intruder9"] ∧
    (stC6.leave_room "r1" "intruder9").get_room_users "r1" =
      stC6.get_room_users "r1" := by decide

/-- C6 (amended): `leaveRoom` on a nonexistent room is a complete no-op
and `getRoomUsers` on a nonexistent room returns the empty list; but
`leaveRoom` for a non-member of an existing (nonempty) room, while
leaving the user map unchanged, still publishes a `UserLeft` event. -/
theorem C6_leave_noop_amended :
    (∀ (st : RoomManager) (rid uid : String),
      alookup st.rooms rid = none → st.leave_room rid uid = st) ∧
    (∀ (st : RoomManager) (rid uid : String) (room : Room),
      alookup st.rooms rid = some room →
      alookup room.users uid = none → room.users ≠ [] →
      (st.leave_room rid uid).rooms =
        ainsert st.rooms rid
          ⟨room.users, room.log ++ [ServerMessage.UserLeft uid]⟩) ∧
    (∀ (st : RoomManager) (rid : String),
      alookup st.rooms rid = none → st.get_room_users rid = []) := by
  refine ⟨?_, ?_, ?_⟩
  · intro st rid uid h
    exact leave_room_none h
  · intro st rid uid room h hn hne
    rw [leave_room_some h, aremove_of_none hn,
      if_neg (by simp [isEmpty_false_of_ne_nil hne])]
  · intro st rid h
    simp [RoomManager.get_room_users, h]

/-- Witness for the amended C6 at concrete states. -/
theorem C6_witness :
    RoomManager.new.leave_room "ghost" "u1" = RoomManager.new ∧
    RoomManager.new.get_room_users "ghost" = [] ∧
    (stC6.leave_room "r1" "intruder9").rooms =
      ainsert stC6.rooms "r1"
        ⟨[("user0001", uiEx)], [ServerMessage.UserLeft "intruder9"]⟩ :=
  ⟨C6_leave_noop_amended.1 RoomManager.new "ghost" "u1" rfl,
   C6_leave_noop_amended.2.2 RoomManager.new "ghost" rfl,
   C6_leave_noop_amended.2.1 stC6 "r1" "intruder9"
     ⟨[("user0001", uiEx)], []⟩ rfl rfl (by decide)⟩

/-- C7: encoding then decoding any well-formed client or server event at
the JSON-value level yields the original event (server events are
well-formed when their binary payload bytes are in range; client events
carry no byte payloads). -/
theorem C7_roundtrip :
    (∀ cm : ClientMessage, decClient (encClient cm) = some cm) ∧
    (∀ sm : ServerMessage, wfServer sm = true →
      decServer (encServer sm) = some sm) := by
  constructor
  · intro cm
    cases cm with
    | CursorMove x y => rfl
    | Draw op => simp [decClient, encClient, jlookup, getObj, decDrawOp_enc]
    | SyncRequest => rfl
    | UpdateName name => rfl
  · intro sm hwf
    cases sm with
    | UserJoined u => rfl
    | UserLeft uid => rfl
    | CursorUpdate uid x y => rfl
    | DrawUpdate uid op =>
      simp [decServer, encServer, jlookup, getObj, getStr, decDrawOp_enc]
    | RoomState users =>
      simp [decServer, encServer, jlookup, getObj, getArr, decUserList_enc]
    | YjsSync uid data =>
      have hd : data.all (fun b => b < 256) = true := hwf
      simp [decServer, encServer, jlookup, getObj, getStr, getArr,
        decByteList_enc hd]
    | Error m => rfl

/-- Witness for C7 at a concrete binary-relay event. -/
theorem C7_witness :
    wfServer (ServerMessage.YjsSync "u1" [0, 17, 255]) = true ∧
    decServer (encServer (ServerMessage.YjsSync "u1" [0, 17, 255])) =
      some (ServerMessage.YjsSync "u1" [0, 17, 255]) :=
  ⟨rfl, C7_roundtrip.2 (ServerMessage.YjsSync "u1" [0, 17, 255]) rfl⟩

/-- C8: color assignment is total and deterministic over all strings
including the empty string, returns the palette entry at index
(byte sum mod palette size), always lands in the palette, and the
palette holds 10 ≥ 8 pairwise-distinct values; the empty string maps to
index 0. -/
theorem C8_color_assignment :
    (∀ uid : String, generate_user_color uid =
      colors.getD ((strBytes uid).sum % colors.length) "") ∧
    (∀ uid : String, generate_user_color uid ∈ colors) ∧
    colors.length = 10 ∧ 8 ≤ colors.length ∧ colors.Nodup ∧
    (∀ uid1 uid2 : String, uid1 = uid2 →
      generate_user_color uid1 = generate_user_color uid2) ∧
    generate_user_color "" = colors.getD 0 "" := by
  refine ⟨fun uid => rfl, ?_, rfl, by decide, by decide, ?_, rfl⟩
  · intro uid
    have key : ∀ n : Nat, n < 10 → colors.getD n "" ∈ colors := by decide
    exact key _ (Nat.mod_lt _ (by decide))
  · intro uid1 uid2 h
    rw [h]

/-- Witness for C8's determinism conjunct at a concrete identifier. -/
theorem C8_witness :
    ("user0001" : String) = "user0001" ∧
    generate_user_color "user0001" = generate_user_color "user0001" :=
  ⟨rfl, C8_color_assignment.2.2.2.2.2.1 "user0001" "user0001" rfl⟩

/-- C9: `join_room` panics (returns `none`) exactly when no character
boundary of the identifier sits at byte offset 8 — i.e. when the
identifier is shorter than 8 bytes or byte 8 falls inside a character —
and returns normally otherwise; in particular it returns normally for a
36-character UUID string like the in-tree caller's and panics for a
short identifier. -/
theorem C9_join_panics_iff_short_or_midchar :
    (∀ (st : RoomManager) (rid uid : String),
      (st.join_room rid uid).isSome = true ↔
        ∃ k, prefixBytes uid.data k = 8) ∧
    (RoomManager.new.join_room "room"
      "3f2504e0-4f89-11d3-9a0c-0305e82c3301").isSome = true ∧
    (RoomManager.new.join_room "room" "short").isSome = false := by
  refine ⟨?_, by decide, by decide⟩
  intro st rid uid
  have hdn : (defaultName uid).isSome = boundary8 uid.data 8 := by
    unfold defaultName
    by_cases hb : boundary8 uid.data 8 = true
    · rw [if_pos hb, hb]
      rfl
    · rw [Bool.not_eq_true] at hb
      rw [hb]
      simp
  have hjs : (st.join_room rid uid).isSome = (defaultName uid).isSome := by
    cases hd : defaultName uid with
    | none =>
      rw [join_room_none hd]
      rfl
    | some nm =>
      rw [join_room_eq hd]
      rfl
  rw [hjs, hdn]
  exact boundary8_iff uid.data 8

/-- C10: in every completed `join_room`, the joiner's `UserJoined` event
is sent on the channel before the subscription cursor is taken, so the
cursor equals the log length, the event sits strictly before it, and the
subscriber sees none of the log so far — the receiver handed back never
yields the joiner's own `UserJoined`. -/
theorem C10_subscribe_after_own_userjoined (st : RoomManager)
    (rid uid : String) (st1 : RoomManager) (cur : Nat)
    (hj : st.join_room rid uid = some (st1, cur)) :
    ∃ (room1 : Room) (ui : UserInfo),
      alookup st1.rooms rid = some room1 ∧
      UserInfo.id ui = uid ∧
      room1.log = ((alookup st.rooms rid).getD Room.new).log ++
        [ServerMessage.UserJoined ui] ∧
      cur = room1.log.length ∧
      room1.log.drop cur = [] := by
  cases hd : defaultName uid with
  | none =>
    rw [join_room_none hd] at hj
    exact Option.noConfusion hj
  | some nm =>
    rw [join_room_eq hd] at hj
    have hp := Option.some.inj hj
    injection hp with h1 h2
    subst h1
    subst h2
    refine ⟨_, ⟨uid, nm, generate_user_color uid⟩,
      alookup_ainsert_self, rfl, rfl, rfl, ?_⟩
    exact List.drop_length _

/-- Witness for C10 at a concrete join into the empty registry. -/
theorem C10_witness :
    ∃ (st1 : RoomManager) (cur : Nat),
      RoomManager.new.join_room "r1" "user0001" = some (st1, cur) ∧
      ∃ (room1 : Room) (ui : UserInfo),
        alookup st1.rooms "r1" = some room1 ∧
        UserInfo.id ui = "user0001" ∧
        room1.log = ((alookup RoomManager.new.rooms "r1").getD Room.new).log ++
          [ServerMessage.UserJoined ui] ∧
        cur = room1.log.length ∧
        room1.log.drop cur = [] := by
  cases hj : RoomManager.new.join_room "r1" "user0001" with
  | none => exact absurd hj (by decide)
  | some p =>
    obtain ⟨st1, cur⟩ := p
    exact ⟨st1, cur, rfl,
      C10_subscribe_after_own_userjoined RoomManager.new "r1" "user0001"
        st1 cur hj⟩
